import Mathlib

/-!
Shallow embedding of the faas-service data plane
(`src/faas-service/src/main.rs`).

The Rust service keeps an `AppState` holding a `HashMap<String, Value>`
store and a `u64` request counter, both behind `tokio::sync::RwLock`.
Each HTTP handler is embedded as a pure Lean function that takes the
values the handler reads from the ambient clock/environment (the Unix
timestamp, an RFC3339 time string, the instance id, the port) as explicit
arguments, together with the current `AppState`, and returns the new
`AppState` paired with the response body.

Modelling decisions:
  * `serde_json::Value` becomes the inductive `Value`.
  * The `HashMap<String, Value>` is embedded as an association list with
    HashMap mapping semantics: `hmInsert` replaces the value in place when
    the key is present (as `HashMap::insert` does) and otherwise adds the
    entry; `hmGet`/`hmRemove` look up / remove by key.  The list order
    stands for the map's (state-determined) iteration order; theorems about
    enumeration only use properties that hold for any fixed order of a
    given map state.
  * `u64` arithmetic is `Nat` with explicit reduction modulo `2 ^ 64`
    (`*count += 1` wraps in release builds).
  * Restricted to the state they touch, the handlers' critical sections are
    indivisible: every handler acquires at most one `RwLock` guard and holds
    it for the whole read-modify-write, so any concurrent execution equals
    some sequential order of the handler bodies.  `runHealth` and `runPuts`
    quantify over such serialized schedules.
-/

/-- `serde_json::Value`: a tree of null / bool / number / string / array /
object nodes.  Numbers are embedded as `Int` (the payloads in this
development are opaque; no claim inspects numeric values). -/
inductive Value where
  | null : Value
  | bool (b : Bool) : Value
  | num (n : Int) : Value
  | str (s : String) : Value
  | arr (xs : List Value) : Value
  | obj (fields : List (String × Value)) : Value

/-- Modulus of Rust's `u64`. -/
def u64Mod : Nat := 2 ^ 64

/-- HTTP status codes this service produces. -/
inductive StatusCode where
  | OK : StatusCode
  | CREATED : StatusCode
  | NO_CONTENT : StatusCode
  | NOT_FOUND : StatusCode
deriving DecidableEq

/-- `AppState`: the shared mutable state (`data: HashMap<String, Value>`,
`request_count: u64`). -/
structure AppState where
  data : List (String × Value)
  request_count : Nat

/-- `QueryParams`: optional `limit` and `offset` query parameters. -/
structure QueryParams where
  limit : Option Nat
  offset : Option Nat

/-- `ServiceInfo`: the `/api/status` response body. -/
structure ServiceInfo where
  service : String
  version : String
  instance_id : String
  port : Nat
  uptime : String
  request_count : Nat

/-- Response body of `GET /health`. -/
structure HealthBody where
  status : String
  timestamp : String
  checks : List (String × String)

/-- Response body of `GET /api/data`. -/
structure ListResult where
  items : List Value
  total : Nat
  limit : Nat
  offset : Nat

/-- Response body of `POST /api/data`. -/
structure PostBody where
  message : String
  key : String

/-- Response body of `GET /api/metrics`. -/
structure MetricsBody where
  request_count : Nat
  stored_items : Nat
  memory_usage : String
  cpu_usage : String
  timestamp : String

/-- Response body of `POST /api/echo`.  The JSON field named `instance` is
embedded as `inst` (`instance` is reserved in Lean). -/
structure EchoBody where
  echo : Value
  timestamp : String
  inst : String

/-- `HashMap::get`: the first (unique, by the map invariant) entry with the
given key, if any. -/
def hmGet (k : String) : List (String × Value) → Option Value
  | [] => none
  | (k2, v2) :: rest => if k2 = k then some v2 else hmGet k rest

/-- `HashMap::insert`: replace the value in place if the key is present,
otherwise add the entry. -/
def hmInsert (k : String) (v : Value) : List (String × Value) → List (String × Value)
  | [] => [(k, v)]
  | (k2, v2) :: rest =>
    if k2 = k then (k, v) :: rest else (k2, v2) :: hmInsert k v rest

/-- `HashMap::remove`: the removed value (if the key was present) together
with the remaining entries. -/
def hmRemove (k : String) : List (String × Value) → Option Value × List (String × Value)
  | [] => (none, [])
  | (k2, v2) :: rest =>
    if k2 = k then (some v2, rest)
    else
      let r := hmRemove k rest
      (r.1, (k2, v2) :: r.2)

/-- `GET /health`: increments the request counter under the write guard and
returns a static healthy body stamped with the current time. -/
def health (now_rfc : String) (s : AppState) : AppState × HealthBody :=
  ({ s with request_count := (s.request_count + 1) % u64Mod },
   { status := "healthy", timestamp := now_rfc,
     checks := [("database", "ok"), ("memory", "ok"), ("disk", "ok")] })

/-- `GET /api/status`: reads the counter and environment-derived identity;
does not mutate the state. -/
def status (instance_id : String) (port : Nat) (s : AppState) :
    AppState × ServiceInfo :=
  (s, { service := "faas-service", version := "1.0.0",
        instance_id := instance_id, port := port, uptime := "0d 0h 0m",
        request_count := s.request_count })

/-- Rendering of one store entry as the item object
`json!("key": k, "value": v)` in the `GET /api/data` response. -/
def entryJson (p : String × Value) : Value :=
  Value.obj [("key", Value.str p.1), ("value", p.2)]

/-- `GET /api/data`: paginated enumeration.  `limit` defaults to 10,
`offset` to 0; items are `data.iter().skip(offset).take(limit)` rendered by
`entryJson`; `total` is `data.len()`. -/
def get_data (params : QueryParams) (s : AppState) : AppState × ListResult :=
  let limit := params.limit.getD 10
  let offset := params.offset.getD 0
  let items := ((s.data.drop offset).take limit).map entryJson
  (s, { items := items, total := s.data.length, limit := limit, offset := offset })

/-- `POST /api/data`: the key is `Utc::now().timestamp().to_string()` — the
decimal string of the Unix timestamp in whole seconds (`now`); the payload
is inserted under that key. -/
def post_data (now : Int) (payload : Value) (s : AppState) :
    AppState × (StatusCode × PostBody) :=
  let key := toString now
  ({ s with data := hmInsert key payload s.data },
   (StatusCode.CREATED,
    { message := "Data stored successfully", key := key }))

/-- `GET /api/data/:key`: point lookup; 404 when absent; read-only. -/
def get_data_by_key (key : String) (s : AppState) :
    AppState × Except StatusCode Value :=
  (s, match hmGet key s.data with
      | some v => Except.ok v
      | none => Except.error StatusCode.NOT_FOUND)

/-- `DELETE /api/data/:key`: removes the record if present; 204 on removal,
404 when absent. -/
def delete_data (key : String) (s : AppState) : AppState × StatusCode :=
  match hmRemove key s.data with
  | (some _, d2) => ({ s with data := d2 }, StatusCode.NO_CONTENT)
  | (none, d2) => ({ s with data := d2 }, StatusCode.NOT_FOUND)

/-- `GET /api/metrics`: reads the counter and store size; read-only. -/
def metrics (now_rfc : String) (s : AppState) : AppState × MetricsBody :=
  (s, { request_count := s.request_count, stored_items := s.data.length,
        memory_usage := "unknown", cpu_usage := "unknown",
        timestamp := now_rfc })

/-- `POST /api/echo`: the handler takes no `State` extractor at all — it
never touches the shared state. -/
def echo (now_rfc instance_id : String) (payload : Value) : EchoBody :=
  { echo := payload, timestamp := now_rfc, inst := instance_id }

/-- Serialized schedule of concurrent `health` calls: the `RwLock` write
guard makes each counter update an indivisible critical section, so every
concurrent execution of `K` health calls equals the sequential run of some
list of `K` calls (each element is the timestamp string that call observed). -/
def runHealth (ts : List String) (s : AppState) : AppState :=
  ts.foldl (fun s t => (health t s).1) s

/-- Sequential run of `POST /api/data` calls; each element is the Unix
timestamp the call observed paired with its payload. -/
def runPuts (puts : List (Int × Value)) (s : AppState) : AppState :=
  puts.foldl (fun s p => (post_data p.1 p.2 s).1) s

/-- The empty initial state (`AppState::default()`). -/
def state0 : AppState := { data := [], request_count := 0 }

/-- A concrete three-entry store with pairwise distinct keys, used to
instantiate universally quantified theorems at a specific input. -/
def sABC : AppState :=
  { data := [("a", Value.null), ("b", Value.bool true), ("c", Value.str "z")],
    request_count := 0 }

theorem hmGet_hmInsert_self (k : String) (v : Value) (d : List (String × Value)) :
    hmGet k (hmInsert k v d) = some v := by
  induction d with
  | nil => simp [hmInsert, hmGet]
  | cons hd tl ih =>
    obtain ⟨k2, v2⟩ := hd
    by_cases h : k2 = k
    · simp [hmInsert, hmGet, h]
    · simp [hmInsert, hmGet, h, ih]

theorem hmGet_hmInsert_ne (k j : String) (v : Value) (d : List (String × Value))
    (hne : j ≠ k) : hmGet j (hmInsert k v d) = hmGet j d := by
  have hkj : ¬(k = j) := fun h => hne h.symm
  induction d with
  | nil => simp [hmInsert, hmGet, hkj]
  | cons hd tl ih =>
    obtain ⟨k2, v2⟩ := hd
    by_cases h : k2 = k
    · subst h
      simp [hmInsert, hmGet, hkj]
    · simp [hmInsert, hmGet, h, ih]

theorem hmRemove_of_absent (k : String) (d : List (String × Value))
    (h : hmGet k d = none) : hmRemove k d = (none, d) := by
  induction d with
  | nil => rfl
  | cons hd tl ih =>
    obtain ⟨k2, v2⟩ := hd
    by_cases hk : k2 = k
    · simp [hmGet, hk] at h
    · simp only [hmGet, if_neg hk] at h
      simp [hmRemove, hk, ih h]

theorem hmRemove_of_present (k : String) (d : List (String × Value)) (v : Value)
    (h : hmGet k d = some v) :
    (hmRemove k d).1 = some v ∧ (hmRemove k d).2.length + 1 = d.length := by
  induction d with
  | nil => simp [hmGet] at h
  | cons hd tl ih =>
    obtain ⟨k2, v2⟩ := hd
    by_cases hk : k2 = k
    · simp only [hmGet, if_pos hk] at h
      simp [hmRemove, hk, h]
    · simp only [hmGet, if_neg hk] at h
      obtain ⟨h1, h2⟩ := ih h
      refine ⟨by simpa [hmRemove, hk] using h1, ?_⟩
      simp only [hmRemove, if_neg hk, List.length_cons]
      omega

theorem hmGet_hmRemove_ne (k j : String) (d : List (String × Value))
    (hne : j ≠ k) : hmGet j (hmRemove k d).2 = hmGet j d := by
  induction d with
  | nil => rfl
  | cons hd tl ih =>
    obtain ⟨k2, v2⟩ := hd
    by_cases hk : k2 = k
    · subst hk
      have hkj : ¬(k2 = j) := fun h => hne h.symm
      simp [hmRemove, hmGet, hkj]
    · simp [hmRemove, hmGet, hk, ih]

theorem hmRemove_sublist (k : String) (d : List (String × Value)) :
    (hmRemove k d).2.Sublist d := by
  induction d with
  | nil => simp [hmRemove]
  | cons hd tl ih =>
    obtain ⟨k2, v2⟩ := hd
    by_cases hk : k2 = k
    · simp [hmRemove, hk]
    · simpa [hmRemove, hk] using ih.cons₂ (k2, v2)

theorem mem_keys_hmInsert (k j : String) (v : Value) (d : List (String × Value))
    (h : j ∈ (hmInsert k v d).map Prod.fst) :
    j ∈ d.map Prod.fst ∨ j = k := by
  induction d with
  | nil => simpa [hmInsert] using h
  | cons hd tl ih =>
    obtain ⟨k2, v2⟩ := hd
    by_cases hk : k2 = k
    · subst hk
      simp only [hmInsert, eq_self_iff_true, if_true, List.map_cons,
        List.mem_cons] at h ⊢
      tauto
    · simp only [hmInsert, if_neg hk, List.map_cons, List.mem_cons] at h
      rcases h with h | h
      · exact Or.inl (by simp [h])
      · rcases ih h with h2 | h2
        · exact Or.inl (by simp [h2])
        · exact Or.inr h2

theorem keys_nodup_hmInsert (k : String) (v : Value) (d : List (String × Value))
    (h : (d.map Prod.fst).Nodup) : ((hmInsert k v d).map Prod.fst).Nodup := by
  induction d with
  | nil => simp [hmInsert]
  | cons hd tl ih =>
    obtain ⟨k2, v2⟩ := hd
    simp only [List.map_cons, List.nodup_cons] at h
    obtain ⟨hmem, hnd⟩ := h
    by_cases hk : k2 = k
    · subst hk
      simp only [hmInsert, if_pos rfl, eq_self_iff_true, if_true, List.map_cons,
        List.nodup_cons]
      exact ⟨hmem, hnd⟩
    · simp only [hmInsert, if_neg hk, List.map_cons, List.nodup_cons]
      refine ⟨fun hin => ?_, ih hnd⟩
      rcases mem_keys_hmInsert k k2 v tl hin with h2 | h2
      · exact hmem h2
      · exact hk h2

theorem keys_nodup_hmRemove (k : String) (d : List (String × Value))
    (h : (d.map Prod.fst).Nodup) : (((hmRemove k d).2).map Prod.fst).Nodup :=
  ((hmRemove_sublist k d).map Prod.fst).nodup h

theorem runHealth_count (ts : List String) (s : AppState)
    (h : s.request_count < u64Mod) :
    (runHealth ts s).request_count = (s.request_count + ts.length) % u64Mod := by
  induction ts generalizing s with
  | nil => simpa [runHealth] using (Nat.mod_eq_of_lt h).symm
  | cons t ts ih =>
    have hlt : (s.request_count + 1) % u64Mod < u64Mod :=
      Nat.mod_lt _ (by norm_num [u64Mod])
    have hstep : runHealth (t :: ts) s
        = runHealth ts { s with request_count := (s.request_count + 1) % u64Mod } := rfl
    rw [hstep, ih _ hlt, Nat.mod_add_mod]
    congr 1
    simp only [List.length_cons]
    omega

theorem hmGet_runPuts_of_notmem (puts : List (Int × Value)) (s : AppState) (k : String)
    (h : ∀ p ∈ puts, toString p.1 ≠ k) :
    hmGet k (runPuts puts s).data = hmGet k s.data := by
  induction puts generalizing s with
  | nil => rfl
  | cons p ps ih =>
    have hstep : runPuts (p :: ps) s = runPuts ps ((post_data p.1 p.2 s).1) := rfl
    rw [hstep, ih _ (fun q hq => h q (List.mem_cons_of_mem _ hq))]
    exact hmGet_hmInsert_ne _ _ _ _ (Ne.symm (h p (List.mem_cons_self _ _)))

theorem hmGet_runPuts_of_mem (puts : List (Int × Value)) :
    ∀ s : AppState, (puts.map fun p => toString p.1).Nodup →
      ∀ (t : Int) (v : Value), (t, v) ∈ puts →
        hmGet (toString t) (runPuts puts s).data = some v := by
  induction puts with
  | nil =>
    intro s _ t v hmem
    simp at hmem
  | cons p ps ih =>
    intro s hnd t v hmem
    simp only [List.map_cons, List.nodup_cons] at hnd
    obtain ⟨hnotin, hnd2⟩ := hnd
    have hstep : runPuts (p :: ps) s = runPuts ps ((post_data p.1 p.2 s).1) := rfl
    rcases List.mem_cons.mp hmem with heq | hmem2
    · have hp : p = (t, v) := heq.symm
      subst hp
      have hkeys : ∀ q ∈ ps, toString q.1 ≠ toString t := by
        intro q hq hcontra
        exact hnotin (hcontra ▸ List.mem_map_of_mem _ hq)
      rw [hstep, hmGet_runPuts_of_notmem ps _ _ hkeys]
      exact hmGet_hmInsert_self _ _ _
    · exact ih _ hnd2 t v hmem2

theorem entryJson_injective : Function.Injective entryJson := by
  intro p q h
  obtain ⟨k1, v1⟩ := p
  obtain ⟨k2, v2⟩ := q
  simp only [entryJson, Value.obj.injEq, List.cons.injEq, Prod.mk.injEq,
    Value.str.injEq, and_true, true_and] at h
  obtain ⟨h1, h2⟩ := h
  rw [h1, h2]

/-- Claim C1 (evidence of the code bug): two `POST /api/data` calls observed
at the same Unix second (here second 100) both return the key "100"; at the
moment the second key is generated it is already present in the store, and
the two generated keys collide — contradicting the required uniqueness of
server-generated keys within one clock tick. -/
theorem C1_same_tick_collision :
    (post_data 100 (Value.str "a") state0).2.2.key
      = (post_data 100 (Value.str "b")
          (post_data 100 (Value.str "a") state0).1).2.2.key
    ∧ (hmGet ((post_data 100 (Value.str "b")
          (post_data 100 (Value.str "a") state0).1).2.2.key)
        ((post_data 100 (Value.str "a") state0).1.data)).isSome = true :=
  ⟨rfl, rfl⟩

/-- Claim C2 (counterexample): a `GET /api/metrics` call does not increment
the request counter — starting from counter value 0 it is still 0 afterwards,
not 1 as the claim requires. -/
theorem C2_metrics_uncounted :
    ¬ ((metrics "2024-01-01T00:00:00Z" state0).1.request_count
        = state0.request_count + 1) := by
  simp [metrics, state0]

/-- Claim C2 (amended): only `health` increments the request counter — it
sets the counter to (previous + 1) mod 2^64; `status`, `listData`,
`putData`, `getByKey`, `deleteByKey` and `metrics` leave it unchanged (and
`echo` does not access the shared state at all). -/
theorem C2_only_health_counts (s : AppState) (rfc iid k : String)
    (port : Nat) (p : QueryParams) (now : Int) (v : Value) :
    (health rfc s).1.request_count = (s.request_count + 1) % u64Mod
    ∧ (status iid port s).1.request_count = s.request_count
    ∧ (get_data p s).1.request_count = s.request_count
    ∧ (post_data now v s).1.request_count = s.request_count
    ∧ (get_data_by_key k s).1.request_count = s.request_count
    ∧ (delete_data k s).1.request_count = s.request_count
    ∧ (metrics rfc s).1.request_count = s.request_count := by
  refine ⟨rfl, rfl, rfl, rfl, rfl, ?_, rfl⟩
  rcases hrm : hmRemove k s.data with ⟨o, d2⟩
  cases o <;> simp [delete_data, hrm]

/-- Claim C3 (evidence of the code bug): three `POST /api/data` calls inside
the same clock second (Unix second 100) leave a single record in the store —
each later call silently overwrites the previous one under the shared key
"100" — so `GET /api/data?limit=2&offset=1` afterwards returns no items and
total 1, not the 2nd and 3rd inserted items with total 3. -/
theorem C3_same_second_scenario :
    ((get_data { limit := some 2, offset := some 1 }
        (runPuts [(100, Value.str "a"), (100, Value.str "b"),
          (100, Value.str "c")] state0)).2.total = 1)
    ∧ ((get_data { limit := some 2, offset := some 1 }
        (runPuts [(100, Value.str "a"), (100, Value.str "b"),
          (100, Value.str "c")] state0)).2.items = []) :=
  ⟨rfl, rfl⟩

/-- Claim C4: the counter update in `health` runs under the RwLock write
guard and is therefore indivisible; every concurrent execution of K health
calls equals the serialized run of some list `ts` of K calls, and starting
from counter 0 the counter afterwards is exactly K (for K below the u64
modulus) — no lost update, no double count. -/
theorem C4_counter_no_lost_update (ts : List String) (s : AppState)
    (h0 : s.request_count = 0) (hK : ts.length < u64Mod) :
    (runHealth ts s).request_count = ts.length := by
  rw [runHealth_count ts s (by rw [h0]; norm_num [u64Mod]), h0, Nat.zero_add,
    Nat.mod_eq_of_lt hK]

/-- Witness for C4 at three concrete health calls from the empty state. -/
theorem C4_witness :
    (["t1", "t2", "t3"] : List String).length < u64Mod
    ∧ (runHealth ["t1", "t2", "t3"] state0).request_count
        = (["t1", "t2", "t3"] : List String).length :=
  ⟨by norm_num [u64Mod],
   C4_counter_no_lost_update ["t1", "t2", "t3"] state0 rfl
     (by norm_num [u64Mod])⟩

/-- Claim C5: `deleteByKey` on an absent key answers 404 (not found) and
leaves the store size unchanged; on a present key it answers 204 and shrinks
the store by exactly one entry. -/
theorem C5_delete_semantics (s : AppState) (k : String) :
    ((hmGet k s.data = none) →
      (delete_data k s).2 = StatusCode.NOT_FOUND
      ∧ (delete_data k s).1.data.length = s.data.length)
    ∧ (∀ v : Value, hmGet k s.data = some v →
      (delete_data k s).2 = StatusCode.NO_CONTENT
      ∧ (delete_data k s).1.data.length + 1 = s.data.length) := by
  constructor
  · intro h
    have hr := hmRemove_of_absent k s.data h
    simp [delete_data, hr]
  · intro v h
    obtain ⟨h1, h2⟩ := hmRemove_of_present k s.data v h
    rcases hrm : hmRemove k s.data with ⟨o, d2⟩
    rw [hrm] at h1 h2
    simp only at h1 h2
    subst h1
    constructor
    · simp [delete_data, hrm]
    · have hd : (delete_data k s).1.data = d2 := by simp [delete_data, hrm]
      rw [hd]
      exact h2

/-- Witness for C5: deleting the absent key "q" from `sABC` answers 404 and
keeps the size; deleting the present key "b" answers 204 and shrinks it. -/
theorem C5_witness :
    ((delete_data "q" sABC).2 = StatusCode.NOT_FOUND
      ∧ (delete_data "q" sABC).1.data.length = sABC.data.length)
    ∧ ((delete_data "b" sABC).2 = StatusCode.NO_CONTENT
      ∧ (delete_data "b" sABC).1.data.length + 1 = sABC.data.length) :=
  ⟨(C5_delete_semantics sABC "q").1 rfl,
   (C5_delete_semantics sABC "b").2 (Value.bool true) rfl⟩

/-- Claim C6: (i) after any sequence of puts whose generated keys are
pairwise distinct, a get of one of those keys returns exactly the value most
recently put under it; (ii) a put whose key already exists replaces the
stored value wholesale — a get right after the put returns the new value
regardless of what the store held before. -/
theorem C6_put_get (puts : List (Int × Value))
    (hnd : (puts.map fun p => toString p.1).Nodup) :
    (∀ (t : Int) (v : Value), (t, v) ∈ puts →
      hmGet (toString t) (runPuts puts state0).data = some v)
    ∧ ∀ (s : AppState) (now : Int) (v : Value),
      hmGet (toString now) ((post_data now v s).1).data = some v := by
  refine ⟨fun t v hm => hmGet_runPuts_of_mem puts state0 hnd t v hm, ?_⟩
  intro s now v
  exact hmGet_hmInsert_self _ _ _

/-- Witness for C6 at two puts in distinct seconds. -/
theorem C6_witness :
    (([((1 : Int), Value.str "a"), (2, Value.str "b")].map
        fun p => toString p.1).Nodup)
    ∧ hmGet (toString (1 : Int))
        (runPuts [((1 : Int), Value.str "a"), (2, Value.str "b")] state0).data
      = some (Value.str "a") :=
  ⟨by decide,
   (C6_put_get [((1 : Int), Value.str "a"), (2, Value.str "b")] (by decide)).1
     1 (Value.str "a") (List.mem_cons_self _ _)⟩

/-- Claim C7: `listData` reports `total` equal to the full store size; an
offset at or beyond the store size yields an empty item list (no error); a
limit of 0 yields an empty item list. -/
theorem C7_list_bounds (s : AppState) (limit offset : Nat) :
    ((get_data { limit := some limit, offset := some offset } s).2.total
        = s.data.length)
    ∧ (s.data.length ≤ offset →
        (get_data { limit := some limit, offset := some offset } s).2.items = [])
    ∧ (limit = 0 →
        (get_data { limit := some limit, offset := some offset } s).2.items = []) := by
  refine ⟨rfl, fun h => ?_, fun h => ?_⟩
  · simp [get_data, List.drop_eq_nil_of_le h]
  · subst h
    simp [get_data]

/-- Witness for C7 on `sABC` with offset 5 (beyond the size 3) and limit 0. -/
theorem C7_witness :
    ((get_data { limit := some 0, offset := some 5 } sABC).2.total
        = sABC.data.length)
    ∧ ((get_data { limit := some 0, offset := some 5 } sABC).2.items = [])
    ∧ ((get_data { limit := some 0, offset := some 5 } sABC).2.items = []) := by
  obtain ⟨h1, h2, h3⟩ := C7_list_bounds sABC 0 5
  exact ⟨h1, h2 (by norm_num [sABC]), h3 rfl⟩

/-- Claim C8: with no intervening writes, page (offset 0, limit N) followed
by page (offset N, limit N) yields two disjoint slices whose concatenation
is page (offset 0, limit 2N), and both pages report the same total.  The
hypothesis that the store's keys are pairwise distinct is the HashMap
invariant (preserved by `hmInsert` and `hmRemove`, see
`keys_nodup_hmInsert` and `keys_nodup_hmRemove`). -/
theorem C8_pagination (s : AppState) (N : Nat)
    (hnd : (s.data.map Prod.fst).Nodup) :
    ((get_data { limit := some N, offset := some 0 } s).2.items
        ++ (get_data { limit := some N, offset := some N } s).2.items
      = (get_data { limit := some (2 * N), offset := some 0 } s).2.items)
    ∧ ((get_data { limit := some N, offset := some 0 } s).2.total
        = (get_data { limit := some N, offset := some N } s).2.total)
    ∧ List.Disjoint
        (get_data { limit := some N, offset := some 0 } s).2.items
        (get_data { limit := some N, offset := some N } s).2.items := by
  refine ⟨?_, rfl, ?_⟩
  · show (((s.data.drop 0).take N).map entryJson)
        ++ (((s.data.drop N).take N).map entryJson)
      = ((s.data.drop 0).take (2 * N)).map entryJson
    rw [← List.map_append, List.drop_zero, two_mul, List.take_add]
  · show List.Disjoint (((s.data.drop 0).take N).map entryJson)
      (((s.data.drop N).take N).map entryJson)
    rw [List.drop_zero]
    refine List.disjoint_map entryJson_injective (fun a ha hb => ?_)
    exact List.disjoint_take_drop (hnd.of_map) le_rfl ha (List.take_subset _ _ hb)

/-- Witness for C8 on `sABC` with page size 1. -/
theorem C8_witness :
    ((get_data { limit := some 1, offset := some 0 } sABC).2.items
        ++ (get_data { limit := some 1, offset := some 1 } sABC).2.items
      = (get_data { limit := some (2 * 1), offset := some 0 } sABC).2.items)
    ∧ ((get_data { limit := some 1, offset := some 0 } sABC).2.total
        = (get_data { limit := some 1, offset := some 1 } sABC).2.total)
    ∧ List.Disjoint
        (get_data { limit := some 1, offset := some 0 } sABC).2.items
        (get_data { limit := some 1, offset := some 1 } sABC).2.items :=
  C8_pagination sABC 1 (by decide)

/-- Claim C9: the key generated by `POST /api/data` is exactly the decimal
string of the Unix timestamp in whole seconds — it depends neither on the
request payload nor on the store contents, so two calls evaluated at the
same clock second return equal keys. -/
theorem C9_key_pure_function_of_clock (now : Int) (p1 p2 : Value)
    (s1 s2 : AppState) :
    (post_data now p1 s1).2.2.key = toString now
    ∧ (post_data now p1 s1).2.2.key = (post_data now p2 s2).2.2.key :=
  ⟨rfl, rfl⟩

/-- Claim C10: frame conditions — a put changes no key other than the one it
generates and a delete changes no key other than the one deleted (lookups of
every other key are unchanged), while `getByKey`, `listData` and `metrics`
leave the whole store mapping untouched. -/
theorem C10_frame (s : AppState) (now : Int) (v : Value) (k j : String)
    (p : QueryParams) (rfc : String) :
    (j ≠ toString now →
      hmGet j ((post_data now v s).1).data = hmGet j s.data)
    ∧ (j ≠ k → hmGet j ((delete_data k s).1).data = hmGet j s.data)
    ∧ ((get_data_by_key k s).1.data = s.data)
    ∧ ((get_data p s).1.data = s.data)
    ∧ ((metrics rfc s).1.data = s.data) := by
  refine ⟨fun h => hmGet_hmInsert_ne _ _ _ _ h, fun h => ?_, rfl, rfl, rfl⟩
  have hfr := hmGet_hmRemove_ne k j s.data h
  rcases hrm : hmRemove k s.data with ⟨o, d2⟩
  rw [hrm] at hfr
  cases o <;> simp only [delete_data, hrm] <;> exact hfr

/-- Witness for C10: a put at second 7 and a delete of "b" both leave the
value under "a" in `sABC` unchanged. -/
theorem C10_witness :
    (hmGet "a" ((post_data 7 Value.null sABC).1).data = hmGet "a" sABC.data)
    ∧ (hmGet "a" ((delete_data "b" sABC).1).data = hmGet "a" sABC.data)
    ∧ ((get_data_by_key "b" sABC).1.data = sABC.data)
    ∧ ((get_data { limit := some 2, offset := some 0 } sABC).1.data = sABC.data)
    ∧ ((metrics "ts" sABC).1.data = sABC.data) := by
  obtain ⟨h1, h2, h3, h4, h5⟩ :=
    C10_frame sABC 7 Value.null "b" "a"
      { limit := some 2, offset := some 0 } "ts"
  exact ⟨h1 (by decide), h2 (by decide), h3, h4, h5⟩
